import Mathlib

/-!
# Verification of the funtime-config resolution engine

Shallow embedding of the configuration loader of this repository, following
the `FuntimeConfigLoader` class (the complete variant of the loader, with
env-file loading, local-config registration and the schema registry; the
other source files of the repository are earlier variants of the same design
with identical coercion, population, resolution and validation code).

Modelling conventions:
* A JavaScript object is an ordered association list `List (String × Value)`;
  property assignment is `upsert`, which updates an existing key in place
  (JS objects keep the original insertion position of an updated key) and
  appends a fresh key at the end.
* `process.env` is an ordered association list `List (String × String)`;
  every listed entry is present with a defined string value.
* JS numbers are modelled as exact decimals `mantissa / 10 ^ scale` in
  canonical form, plus `inf`, `negInf` and `nan`; binary-float rounding is
  not modelled (no claim depends on values outside the exact decimal grid).
* String manipulation is defined over `List Char` so that every definition
  evaluates by kernel reduction.
* External collaborators are injected capabilities, as the specification
  prescribes: `class-validator`'s `validateSync` and the dynamic import of
  the local config module are fields of `LoaderCtx`; the file system is a
  partial map from path to file content (`none` = missing/unreadable).
* `class-transformer`'s `plainToInstance` (default options) constructs a
  fresh instance of the class and assigns every own enumerable entry of the
  source bag onto it, keeping extraneous keys.
* Resolver functions are user closures; a resolver created by a class field
  initializer captures the first constructed instance (`configInstance` in
  `load`), whose final state is the bag after environment population, so
  resolvers are modelled as functions of that bag and the target property
  name (`input.property`).
-/

namespace Funtime

/-- Strip factors of ten: `canonDec m s` is the canonical representation of
the decimal `m / 10 ^ s`. -/
def canonDec : ℤ → ℕ → ℤ × ℕ
  | m, 0 => (m, 0)
  | m, s + 1 => if m % 10 = 0 then canonDec (m / 10) s else (m, s + 1)

/-- JavaScript number: exact decimal `mantissa / 10 ^ scale` for finite
values (canonical: the mantissa of a value with positive scale is not
divisible by ten), plus the three special values. -/
inductive JsNum where
  | finite (mantissa : ℤ) (scale : ℕ)
  | inf
  | negInf
  | nan
deriving DecidableEq

def JsNum.isNaN : JsNum → Bool
  | .nan => true
  | _ => false

def JsNum.isFinite : JsNum → Bool
  | .finite _ _ => true
  | _ => false

/-- JS unary minus on a number. -/
def JsNum.neg : JsNum → JsNum
  | .finite m s => .finite (-m) s
  | .inf => .negInf
  | .negInf => .inf
  | .nan => .nan

/-- A runtime configuration value (the `ConfigValue` type of the source:
string, number, boolean, the secret-marker symbol, a resolver function,
object or array; `null` can additionally arrive from `JSON.parse`).
A resolver function is represented by an opaque identifier; the closure
bodies are supplied through `LoaderCtx.resolve`. -/
inductive Value where
  | str (s : String)
  | num (n : JsNum)
  | bool (b : Bool)
  | null
  | sym
  | func (id : ℕ)
  | obj (fields : List (String × Value))
  | arr (elems : List Value)

def Value.isFunc : Value → Bool
  | .func _ => true
  | _ => false

/-! ## Ordered association lists (JS objects / maps) -/

/-- Property read: first entry with the key (keys are unique in lists built
by `upsert`, so this is the JS property read / `Map.get`). -/
def lookupA {α : Type} : List (String × α) → String → Option α
  | [], _ => none
  | (k', v) :: t, k => if k' = k then some v else lookupA t k

/-- JS property assignment / `Map.set`: update an existing key in place
(keeping its position), else append at the end. -/
def upsert {α : Type} : List (String × α) → String → α → List (String × α)
  | [], k, v => [(k, v)]
  | (k', v') :: t, k, v => if k' = k then (k, v) :: t else (k', v') :: upsert t k v

/-- Assign a list of key/value pairs left to right. -/
def applyAll {α : Type} (l : List (String × α)) (ps : List (String × α)) : List (String × α) :=
  ps.foldl (fun acc p => upsert acc p.1 p.2) l

/-- The value of the last entry with the given key, if any. -/
def lastEntry {α : Type} : List (String × α) → String → Option α
  | [], _ => none
  | (k', v) :: t, k =>
    match lastEntry t k with
    | some w => some w
    | none => if k' = k then some v else none

/-- The keys of the list are pairwise distinct (true of every list built by
`upsert` from `[]`, i.e. of every JS object). -/
abbrev keysNodup {α : Type} (l : List (String × α)) : Prop :=
  (l.map Prod.fst).Nodup

/-! ## Character/string helpers (structural, over `List Char`) -/

def dquoteChar : Char := Char.ofNat 34

def squoteChar : Char := Char.ofNat 39

def bslashChar : Char := Char.ofNat 92

/-- `String.prototype.toLowerCase` (ASCII range; no claim involves non-ASCII
case mapping). -/
def lowerStr (s : String) : String :=
  ⟨s.data.map Char.toLower⟩

/-- `String.prototype.trim` (over the ASCII whitespace characters; the few
extra Unicode space characters JS also trims play no role here). -/
def jsTrim (s : String) : String :=
  ⟨((s.data.dropWhile Char.isWhitespace).reverse.dropWhile Char.isWhitespace).reverse⟩

/-- `String.prototype.split` with a one-character separator (the only form
the source uses). -/
def splitOnChar (sep : Char) : List Char → List (List Char)
  | [] => [[]]
  | c :: t =>
    match splitOnChar sep t with
    | [] => [[c]]
    | h :: r => if c = sep then [] :: h :: r else (c :: h) :: r

def jsSplit (s : String) (sep : Char) : List String :=
  (splitOnChar sep s.data).map (fun l => ⟨l⟩)

/-- `Array.prototype.join`. -/
def jsJoin (sep : String) : List String → String
  | [] => ""
  | [x] => x
  | x :: y :: t => x ++ sep ++ jsJoin sep (y :: t)

def startsWithChar (s : String) (c : Char) : Bool :=
  match s.data with
  | c' :: _ => c' = c
  | [] => false

/-- `value.replace(/^["']/, '')`. -/
def stripLeadQuote (s : String) : String :=
  match s.data with
  | c :: t => if c = dquoteChar ∨ c = squoteChar then ⟨t⟩ else s
  | [] => s

/-- `value.replace(/["']$/, '')`. -/
def stripTrailQuote (s : String) : String :=
  match s.data.reverse with
  | c :: t => if c = dquoteChar ∨ c = squoteChar then ⟨t.reverse⟩ else s
  | [] => s

/-! ## JavaScript string-to-number conversion (`Number(value)`) -/

def digitsToNat (ds : List Char) : ℕ :=
  ds.foldl (fun n c => n * 10 + (c.toNat - 48)) 0

def hexVal (c : Char) : Option ℕ :=
  if 48 ≤ c.toNat ∧ c.toNat ≤ 57 then some (c.toNat - 48)
  else if 97 ≤ c.toNat ∧ c.toNat ≤ 102 then some (c.toNat - 87)
  else if 65 ≤ c.toNat ∧ c.toNat ≤ 70 then some (c.toNat - 55)
  else none

def radixDigitsToNat (ds : List Char) (base : ℕ) : ℕ :=
  ds.foldl (fun n c => n * base + ((hexVal c).getD 0)) 0

def isHexDigit (c : Char) : Bool :=
  (hexVal c).isSome

/-- The finite JS number `(-1)^neg * m * 10 ^ (ex - fracLen)` where `m` is
the concatenated integer-and-fraction digit string, in canonical decimal
form. -/
def mkDecNum (neg : Bool) (m : ℕ) (fracLen : ℕ) (ex : ℤ) : JsNum :=
  let sm : ℤ := if neg then -(m : ℤ) else (m : ℤ)
  let net : ℤ := ex - (fracLen : ℤ)
  if 0 ≤ net then .finite (sm * (10 : ℤ) ^ net.toNat) 0
  else
    let p := canonDec sm (-net).toNat
    .finite p.1 p.2

/-- Exponent part of a numeric literal (`e`/`E`, optional sign, digits);
returns the exponent and the rest. `none` when an `e` is present but
malformed. When no `e` follows, the exponent is `0`. -/
def expPart (cs : List Char) : Option (ℤ × List Char) :=
  match cs with
  | [] => some (0, [])
  | c :: r =>
    if c = 'e' ∨ c = 'E' then
      let (eneg, r2) :=
        match r with
        | c2 :: r3 => if c2 = '+' then (false, r3) else if c2 = '-' then (true, r3) else (false, r)
        | [] => (false, r)
      let (eds, r4) := r2.span Char.isDigit
      if eds = [] then none
      else some ((if eneg then -(digitsToNat eds : ℤ) else (digitsToNat eds : ℤ)), r4)
    else some (0, cs)

/-- Body of an unsigned `StrDecimalLiteral`: `Infinity`, or
`digits [. digits] [exp]` / `. digits [exp]`; must consume the whole input
(the ECMAScript forms `5.`, `.5`, `1.e3` are accepted, leading zeros are
allowed). -/
def decBody (cs : List Char) : Option JsNum :=
  if cs = "Infinity".data then some .inf
  else
    let (intDs, r1) := cs.span Char.isDigit
    let (fracDs, r2) :=
      match r1 with
      | c :: r => if c = '.' then r.span Char.isDigit else ([], r1)
      | [] => ([], r1)
    if intDs = [] ∧ fracDs = [] then none
    else
      match expPart r2 with
      | none => none
      | some (ex, rest) =>
        if rest = [] then
          some (mkDecNum false (digitsToNat (intDs ++ fracDs)) fracDs.length ex)
        else none

/-- Unsigned numeric body including the radix forms `0x`/`0o`/`0b` (which do
not admit a sign in JS). -/
def radixOrDec (cs : List Char) : JsNum :=
  match cs with
  | '0' :: x :: r =>
    if x = 'x' ∨ x = 'X' then
      let (ds, rest) := r.span isHexDigit
      if ds ≠ [] ∧ rest = [] then .finite ((radixDigitsToNat ds 16 : ℕ) : ℤ) 0 else .nan
    else if x = 'o' ∨ x = 'O' then
      let (ds, rest) := r.span (fun c => 48 ≤ c.toNat ∧ c.toNat ≤ 55)
      if ds ≠ [] ∧ rest = [] then .finite ((radixDigitsToNat ds 8 : ℕ) : ℤ) 0 else .nan
    else if x = 'b' ∨ x = 'B' then
      let (ds, rest) := r.span (fun c => c = '0' ∨ c = '1')
      if ds ≠ [] ∧ rest = [] then .finite ((radixDigitsToNat ds 2 : ℕ) : ℤ) 0 else .nan
    else (decBody cs).getD .nan
  | _ => (decBody cs).getD .nan

/-- ECMAScript `Number(string)` (`StringToNumber`): trim whitespace, empty
string is `0`, optional sign with a decimal literal or `Infinity`, radix
literals without sign, anything else is `NaN`. -/
def jsToNumber (s : String) : JsNum :=
  let t := jsTrim s
  if t = "" then .finite 0 0
  else
    match t.data with
    | [] => .nan
    | c :: rest =>
      if c = '+' then (decBody rest).getD .nan
      else if c = '-' then ((decBody rest).getD .nan).neg
      else radixOrDec t.data

/-! ## JSON parsing (`JSON.parse`) -/

def jsonWs (c : Char) : Bool :=
  c = ' ' || c = '\t' || c = '\n' || c = '\r'

def skipWs (cs : List Char) : List Char :=
  cs.dropWhile jsonWs

def jsonLeadingZero : List Char → Bool
  | c :: _ :: _ => c = '0'
  | _ => false

def escChar (c : Char) : Option Char :=
  if c = dquoteChar then some dquoteChar
  else if c = bslashChar then some bslashChar
  else if c = '/' then some '/'
  else if c = 'b' then some (Char.ofNat 8)
  else if c = 'f' then some (Char.ofNat 12)
  else if c = 'n' then some '\n'
  else if c = 'r' then some '\r'
  else if c = 't' then some '\t'
  else none

/-- JSON number: `-? int frac? exp?` with no leading zeros and at least one
digit after a decimal point; returns the value and the rest of the input. -/
def jsonNum (cs : List Char) : Option (Value × List Char) :=
  let (neg, cs1) :=
    match cs with
    | c :: r => if c = '-' then (true, r) else (false, cs)
    | [] => (false, cs)
  let (intDs, cs2) := cs1.span Char.isDigit
  if intDs = [] then none
  else if jsonLeadingZero intDs then none
  else
    let hasDot : Bool :=
      match cs2 with
      | c :: _ => c = '.'
      | [] => false
    let (fracDs, cs3) :=
      match cs2 with
      | c :: r => if c = '.' then r.span Char.isDigit else ([], cs2)
      | [] => ([], cs2)
    if hasDot ∧ fracDs = [] then none
    else
      match expPart cs3 with
      | none => none
      | some (ex, rest) =>
        some (.num (mkDecNum neg (digitsToNat (intDs ++ fracDs)) fracDs.length ex), rest)

/-- Parser state of the JSON recursive descent: a value, an object (just
after `{` / at a mandatory member), an array (just after `[` / at a
mandatory element), or a string body (opening quote consumed). -/
inductive JsonMode where
  | val (cs : List Char)
  | objStart (cs : List Char)
  | objBody (cs : List Char) (acc : List (String × Value))
  | arrStart (cs : List Char)
  | arrBody (cs : List Char) (acc : List Value)
  | strBody (cs : List Char) (acc : String)

/-- Fuel-indexed JSON recursive descent. Every recursive call consumes at
least one input character first, so fuel `|input| + 1` never runs out.
Duplicate object keys follow JS object assignment (`upsert`: later value
wins, earlier position kept). -/
def jsonRun : ℕ → JsonMode → Option (Value × List Char)
  | 0, _ => none
  | f + 1, .val cs =>
    match skipWs cs with
    | [] => none
    | c :: rest =>
      if c = '{' then jsonRun f (.objStart rest)
      else if c = '[' then jsonRun f (.arrStart rest)
      else if c = dquoteChar then jsonRun f (.strBody rest "")
      else if c = 't' then
        match rest with
        | 'r' :: 'u' :: 'e' :: r => some (.bool true, r)
        | _ => none
      else if c = 'f' then
        match rest with
        | 'a' :: 'l' :: 's' :: 'e' :: r => some (.bool false, r)
        | _ => none
      else if c = 'n' then
        match rest with
        | 'u' :: 'l' :: 'l' :: r => some (.null, r)
        | _ => none
      else jsonNum (c :: rest)
  | f + 1, .objStart cs =>
    match skipWs cs with
    | [] => none
    | c :: rest =>
      if c = '}' then some (.obj [], rest)
      else jsonRun f (.objBody (c :: rest) [])
  | f + 1, .objBody cs acc =>
    match skipWs cs with
    | [] => none
    | c :: rest =>
      if c = dquoteChar then
        match jsonRun f (.strBody rest "") with
        | some (Value.str k, r1) =>
          (match skipWs r1 with
          | ':' :: r2 =>
            (match jsonRun f (.val r2) with
            | some (v, r3) =>
              (match skipWs r3 with
              | c3 :: r4 =>
                if c3 = ',' then jsonRun f (.objBody r4 (upsert acc k v))
                else if c3 = '}' then some (.obj (upsert acc k v), r4)
                else none
              | [] => none)
            | none => none)
          | _ => none)
        | _ => none
      else none
  | f + 1, .arrStart cs =>
    match skipWs cs with
    | [] => none
    | c :: rest =>
      if c = ']' then some (.arr [], rest)
      else jsonRun f (.arrBody (c :: rest) [])
  | f + 1, .arrBody cs acc =>
    match jsonRun f (.val cs) with
    | some (v, r1) =>
      (match skipWs r1 with
      | c :: r2 =>
        if c = ',' then jsonRun f (.arrBody r2 (acc ++ [v]))
        else if c = ']' then some (.arr (acc ++ [v]), r2)
        else none
      | [] => none)
    | none => none
  | f + 1, .strBody cs acc =>
    match cs with
    | [] => none
    | c :: rest =>
      if c = dquoteChar then some (.str acc, rest)
      else if c = bslashChar then
        match rest with
        | [] => none
        | e :: rest2 =>
          if e = 'u' then
            match rest2 with
            | h1 :: h2 :: h3 :: h4 :: rest3 =>
              (match hexVal h1, hexVal h2, hexVal h3, hexVal h4 with
              | some a, some b, some c2, some d =>
                jsonRun f (.strBody rest3 (acc.push (Char.ofNat (((a * 16 + b) * 16 + c2) * 16 + d))))
              | _, _, _, _ => none)
            | _ => none
          else
            match escChar e with
            | some ch => jsonRun f (.strBody rest2 (acc.push ch))
            | none => none
      else if c.toNat < 32 then none
      else jsonRun f (.strBody rest (acc.push c))

/-- `JSON.parse`: one JSON document covering the entire input (up to
whitespace), else failure. -/
def jsonParse (s : String) : Option Value :=
  match jsonRun (s.data.length + 1) (.val s.data) with
  | some (v, rest) => if (skipWs rest).isEmpty then some v else none
  | none => none

/-! ## Value coercion (`FuntimeConfigLoader.parseEnvValue`) -/

/-- `parseEnvValue`: case-insensitive booleans, then
`!isNaN(Number(value)) && value !== ''`, then `JSON.parse`, else the
original string. -/
def parseEnvValue (value : String) : Value :=
  if lowerStr value = "true" then Value.bool true
  else if lowerStr value = "false" then Value.bool false
  else if (jsToNumber value).isNaN = false ∧ value ≠ "" then Value.num (jsToNumber value)
  else
    match jsonParse value with
    | some v => v
    | none => Value.str value

/-! ## Data model of the loader -/

/-- A JS object / typed instance: ordered own enumerable properties. -/
abbrev Bag : Type := List (String × Value)

/-- The ambient environment snapshot (`process.env`): ordered entries, each
present with a defined string value. -/
abbrev EnvList : Type := List (String × String)

/-- A configuration class: its `name` and the own properties an instance has
after `new` runs all class field initializers (base class first, derived
initializers applied over them — see `classFields`). -/
structure Schema where
  name : String
  fields : List (String × Value)

/-- The registry `Map<string, ClassConstructor>`. -/
abbrev Registry : Type := List (String × Schema)

/-- One `class-validator` error: failing property plus its `constraints`
map (constraint name to human-readable message). -/
structure FieldError where
  property : String
  constraints : List (String × String)
deriving DecidableEq

/-- The failure modes of `load` (the source throws `Error`s; the messages
relevant to the claims are carried explicitly). -/
inductive LoadError where
  | missingEnv
  | unknownEnv (nodeEnv : Option String)
  | validationFailed (msg : String)
deriving DecidableEq

/-- The `envFilePath` option: absent, boolean, or a path string. -/
inductive EnvFilePathSetting where
  | unset
  | bool (b : Bool)
  | path (s : String)

/-- JS truthiness of the `envFilePath` option (`false`, `undefined` and the
empty string are falsy). -/
def EnvFilePathSetting.truthy : EnvFilePathSetting → Bool
  | .unset => false
  | .bool b => b
  | .path s => !(s == "")

/-- `this.options.envFilePath === true ? '.env' : this.options.envFilePath`
(only reached when the option is truthy). -/
def EnvFilePathSetting.resolvedPath : EnvFilePathSetting → String
  | .bool _ => ".env"
  | .path s => s
  | .unset => ".env"

/-- The loader options and its injected external collaborators:
`fs` is the file system (path to content, `none` = missing or unreadable;
`path.resolve` is modelled as the identity on the configured path);
`localSchema` is the outcome of `await import(localConfigPath)` plus the
`prototype instanceof FuntimeConfig` check (`none` covers a missing module,
a load error, or an export that is not a config subclass);
`resolve` gives the body of the user resolver closure with a given id, as a
function of the captured `configInstance` bag and the `property` argument;
`validate` is `class-validator`'s `validateSync`. -/
structure LoaderCtx where
  envFilePath : EnvFilePathSetting
  localSchema : Option Schema
  fs : String → Option String
  resolve : ℕ → Bag → String → Value
  validate : Bag → List FieldError

/-- Class field initialization: run `inits` over the inherited fields by
property assignment. A base class is `classFields base []`-style with
`base = []`; a derived class overrides in place and appends new fields. -/
def classFields (inherited : List (String × Value)) (inits : List (String × Value)) :
    List (String × Value) :=
  applyAll inherited inits

/-! ## Environment file loading (`FuntimeConfigLoader.loadEnvFile`) -/

/-- One line of the env file: `none` for an empty line, a `#` comment (after
trimming) or a line without `=` after a nonempty key; otherwise the trimmed
key and the trimmed, unquoted value (the tail rejoined on `=`). -/
def lineEntry (line : String) : Option (String × String) :=
  if line = "" then none
  else if startsWithChar (jsTrim line) '#' then none
  else
    match jsSplit line '=' with
    | [] => none
    | key :: valueParts =>
      if key = "" then none
      else if valueParts = [] then none
      else some (jsTrim key, stripTrailQuote (stripLeadQuote (jsTrim (jsJoin "=" valueParts))))

/-- The well-formed entries of an env file, in line order. -/
def envFileEntries (content : String) : List (String × String) :=
  (jsSplit content '\n').filterMap lineEntry

/-- `loadEnvFile`: no-op when the file is missing or unreadable; otherwise
split into lines and assign every well-formed `KEY=VALUE` entry into the
ambient environment (`process.env[key.trim()] = unquotedValue`). -/
def loadEnvFile (content : Option String) (env : EnvList) : EnvList :=
  match content with
  | none => env
  | some c =>
    (jsSplit c '\n').foldl
      (fun e line =>
        match lineEntry line with
        | some kv => upsert e kv.1 kv.2
        | none => e)
      env

/-! ## Validation message -/

/-- The aggregate message of the source: `Validation failed: ` followed by
the per-field reason lists (the values of each error's `constraints`,
joined by `, `), joined by `; `. -/
def validationMsg (errs : List FieldError) : String :=
  "Validation failed: " ++
    jsJoin "; " (errs.map (fun e => jsJoin ", " (e.constraints.map (fun c => c.2))))

/-- `needle` occurs contiguously inside `msg`. -/
def strContains (needle msg : String) : Prop :=
  ∃ pre post, msg.data = pre ++ needle.data ++ post

/-! ## The resolution pipeline (`FuntimeConfigLoader.load`) -/

/-- The ambient environment after the optional env-file step. -/
def effectiveEnv (ctx : LoaderCtx) (env : EnvList) : EnvList :=
  if ctx.envFilePath.truthy then loadEnvFile (ctx.fs ctx.envFilePath.resolvedPath) env else env

/-- The registry after the best-effort registration of the local config
(`this.configs.set('local', LocalConfig)` when the import produced a config
subclass). -/
def effectiveRegistry (ctx : LoaderCtx) (reg : Registry) : Registry :=
  match ctx.localSchema with
  | some l => upsert reg "local" l
  | none => reg

/-- JS falsiness of `process.env.NODE_ENV` (`undefined` or `""`). -/
def jsFalsyStr : Option String → Bool
  | none => true
  | some s => s == ""

/-- `this.configs.get(nodeEnv as string)` (a `get` with an `undefined` key
misses). -/
def nodeEnvLookup (reg : Registry) : Option String → Option Schema
  | some s => lookupA reg s
  | none => none

/-- Population: `configInstance = new ConfigClass()` (the class fields),
then `configInstance[key] = parseEnvValue(value)` for every entry of the
ambient snapshot (every entry has a defined value in this model). -/
def populateStage (env : EnvList) (c : Schema) : Bag :=
  applyAll c.fields (env.map (fun e => (e.1, parseEnvValue e.2)))

/-- `class-transformer`'s `plainToInstance` with default options: construct
a fresh instance (the class fields) and assign every own enumerable entry of
the source bag onto it, extraneous keys included. -/
def plainToInstance (c : Schema) (bag : Bag) : Bag :=
  applyAll c.fields bag

/-- One iteration of the resolution loop: replace a function-valued entry
by its resolver's result, leave any other entry alone. The resolver closure
reads the captured `configInstance` bag and receives `{ property: key }`. -/
def resolveStep (resolve : ℕ → Bag → String → Value) (bag : Bag) (st : Bag)
    (e : String × Value) : Bag :=
  match e.2 with
  | Value.func rid => upsert st e.1 (resolve rid bag e.1)
  | _ => st

/-- The resolution loop, over a snapshot of `Object.entries(instance)`. -/
def resolveProps (resolve : ℕ → Bag → String → Value) (bag : Bag) (inst : Bag) : Bag :=
  inst.foldl (resolveStep resolve bag) inst

/-- Population, `plainToInstance` and lazy-property resolution for a chosen
schema under a given ambient snapshot. -/
def resolveStage (ctx : LoaderCtx) (env : EnvList) (c : Schema) : Bag :=
  resolveProps ctx.resolve (populateStage env c) (plainToInstance c (populateStage env c))

/-- The tail of `load` after a schema has been selected: populate, resolve,
then `validateSync`; a non-empty error list aggregates into one
`Validation failed:` message. -/
def loadTail (ctx : LoaderCtx) (env : EnvList) (c : Schema) : Except LoadError Bag :=
  let inst := resolveStage ctx env c
  let errs := ctx.validate inst
  if errs.length > 0 then .error (.validationFailed (validationMsg errs)) else .ok inst

/-- `load(config?)`: optional env-file step, the `!config && !nodeEnv`
guard, best-effort local registration, schema selection
(`config ?? this.configs.get(nodeEnv)`), then the populate/resolve/validate
tail. -/
def load (ctx : LoaderCtx) (env : EnvList) (reg : Registry) (explicit : Option Schema) :
    Except LoadError Bag :=
  let env' := effectiveEnv ctx env
  let nodeEnv := lookupA env' "NODE_ENV"
  if explicit.isNone && jsFalsyStr nodeEnv then .error .missingEnv
  else
    match explicit with
    | some c => loadTail ctx env' c
    | none =>
      match nodeEnvLookup (effectiveRegistry ctx reg) nodeEnv with
      | some c => loadTail ctx env' c
      | none => .error (.unknownEnv nodeEnv)

/-- `register(...config)`: derive each identifier by lower-casing the class
name and stripping one trailing `config`, then `Map.set`. -/
def envKey (name : String) : String :=
  let l := (lowerStr name).data
  if "config".data.isSuffixOf l then ⟨l.take (l.length - 6)⟩ else ⟨l⟩

def register (reg : Registry) (cfgs : List Schema) : Registry :=
  cfgs.foldl (fun r cfg => upsert r (envKey cfg.name) cfg) reg

/-! ## A trivial loader context (no env file, no local config, empty validation) -/
def trivialCtx : LoaderCtx :=
  { envFilePath := .unset
    localSchema := none
    fs := fun _ => none
    resolve := fun _ _ _ => Value.null
    validate := fun _ => [] }

/-! ## Concrete fixtures used by the claim theorems and their witnesses -/

/-- C1 scenario, base schema: field `N` with default 42. -/
def c1BaseFields : List (String × Value) :=
  classFields [] [("N", Value.num (JsNum.finite 42 0))]

/-- C1 scenario, derived schema: overrides `N` to 69 and declares, after
`N`, the lazy field `M` (resolver id 0). -/
def c1Derived : Schema :=
  ⟨"DerivedConfig",
    classFields c1BaseFields [("N", Value.num (JsNum.finite 69 0)), ("M", Value.func 0)]⟩

/-- C1 user resolver bodies: resolver 0 is the closure reading the sibling
field `N` of the captured instance and returning `N * 2`. -/
def c1Resolve : ℕ → Bag → String → Value := fun rid bag _ =>
  if rid = 0 then
    match lookupA bag "N" with
    | some (Value.num (JsNum.finite m s)) => Value.num (JsNum.finite (m * 2) s)
    | _ => Value.num JsNum.nan
  else Value.null

def c1Ctx (validate : Bag → List FieldError) : LoaderCtx :=
  { envFilePath := .unset
    localSchema := none
    fs := fun _ => none
    resolve := c1Resolve
    validate := validate }

/-- The instance the C1 scenario must produce. -/
def c1Expected : Bag :=
  [("N", Value.num (JsNum.finite 69 0)), ("M", Value.num (JsNum.finite 138 0))]

/-- A schema declaring the single field `F` (C2 counterexample). -/
def c2Schema : Schema := ⟨"TestConfig", [("F", Value.str "x")]⟩

/-- Two schemas whose names derive the same identifier `production`. -/
def prodSchema : Schema := ⟨"ProductionConfig", []⟩

def prodSchema2 : Schema := ⟨"PRODUCTIONCONFIG", [("F", Value.bool true)]⟩

/-- A fixed validation outcome with two failing fields, one of them with two
constraint messages (C8 witness). -/
def c8Errs : List FieldError :=
  [⟨"A", [("isNumber", "A must be a number"), ("max", "A too big")]⟩,
    ⟨"B", [("isString", "B bad")]⟩]

def c8Ctx : LoaderCtx :=
  { envFilePath := .unset
    localSchema := none
    fs := fun _ => none
    resolve := fun _ _ _ => Value.null
    validate := fun _ => c8Errs }

def c8Schema : Schema := ⟨"TestConfig", [("A", Value.str "x")]⟩

/-- A loader configured with an env-file path whose file does not exist
(C9 witness). -/
def c9Ctx : LoaderCtx :=
  { envFilePath := .path "./missing.env"
    localSchema := none
    fs := fun _ => none
    resolve := fun _ _ _ => Value.null
    validate := fun _ => [] }

/-- A schema declaring the single field `F` with a nonempty default
(C10 witness). -/
def c10Schema : Schema := ⟨"TestConfig", [("F", Value.str "default")]⟩

/-! ## Evaluation checks: the embedding computes by reduction -/

example : parseEnvValue "true" = Value.bool true := rfl
example : parseEnvValue "FALSE" = Value.bool false := rfl
example : parseEnvValue "42" = Value.num (JsNum.finite 42 0) := rfl
example : parseEnvValue "8080" = Value.num (JsNum.finite 8080 0) := rfl
example : parseEnvValue "hello" = Value.str "hello" := rfl
example : parseEnvValue "" = Value.str "" := rfl
example : parseEnvValue "Infinity" = Value.num JsNum.inf := rfl
example : parseEnvValue "NaN" = Value.str "NaN" := rfl
example : parseEnvValue "\x7b\"a\":1\x7d" = Value.obj [("a", Value.num (JsNum.finite 1 0))] := rfl
example : parseEnvValue "1.5" = Value.num (JsNum.finite 15 1) := rfl
example : parseEnvValue "-7" = Value.num (JsNum.finite (-7) 0) := rfl
example : parseEnvValue "TRue" = Value.bool true := rfl
example : parseEnvValue "[1,2]" = Value.arr [Value.num (JsNum.finite 1 0), Value.num (JsNum.finite 2 0)] := rfl
example : parseEnvValue "\"hi\"" = Value.str "hi" := rfl

example :
    load trivialCtx [("NODE_ENV", "")] [] none = .error .missingEnv := rfl

example :
    load trivialCtx [] [] none = .error .missingEnv := rfl

example :
    load trivialCtx [("NODE_ENV", "prod")] [] none = .error (.unknownEnv (some "prod")) := rfl

example :
    load trivialCtx [("NODE_ENV", "production")]
      (register [] [⟨"ProductionConfig", [("F", Value.str "x")]⟩]) none
    = .ok [("F", Value.str "x"), ("NODE_ENV", Value.str "production")] := rfl

example :
    load trivialCtx [("NODE_ENV", "test"), ("UNRELATED", "hello")] []
      (some ⟨"TestConfig", [("F", Value.str "x")]⟩)
    = .ok [("F", Value.str "x"), ("NODE_ENV", Value.str "test"),
        ("UNRELATED", Value.str "hello")] := rfl

example : envKey "ProductionConfig" = "production" := rfl

example :
    loadEnvFile (some "A=file") [("A", "ambient")] = [("A", "file")] := rfl

example :
    loadEnvFile (some "# comment\nB= \"quoted\" \nbad\n\nC=x=y") [("A", "keep")]
    = [("A", "keep"), ("B", "quoted"), ("C", "x=y")] := rfl

/-! ## Association list lemmas -/

theorem lookupA_upsert_self {α : Type} (l : List (String × α)) (k : String) (v : α) :
    lookupA (upsert l k v) k = some v := by
  induction l with
  | nil => simp [upsert, lookupA]
  | cons hd t ih =>
    obtain ⟨k', v'⟩ := hd
    by_cases hk : k' = k
    · subst hk
      simp [upsert, lookupA]
    · simp [upsert, lookupA, hk, ih]

theorem lookupA_upsert_ne {α : Type} (l : List (String × α)) (k k' : String) (v : α)
    (h : k' ≠ k) : lookupA (upsert l k v) k' = lookupA l k' := by
  induction l with
  | nil => simp [upsert, lookupA, Ne.symm h]
  | cons hd t ih =>
    obtain ⟨k₀, v₀⟩ := hd
    by_cases hk : k₀ = k
    · subst hk
      simp [upsert, lookupA, Ne.symm h]
    · simp [upsert, lookupA, hk, ih]

theorem applyAll_cons {α : Type} (l : List (String × α)) (pk : String) (pv : α)
    (t : List (String × α)) : applyAll l ((pk, pv) :: t) = applyAll (upsert l pk pv) t := rfl

theorem lookupA_applyAll_of_lastEntry_none {α : Type} (ps l : List (String × α)) (k : String)
    (h : lastEntry ps k = none) : lookupA (applyAll l ps) k = lookupA l k := by
  induction ps generalizing l with
  | nil => rfl
  | cons p t ih =>
    obtain ⟨pk, pv⟩ := p
    rcases hlt : lastEntry t k with _ | w
    · have hpk : pk ≠ k := by
        intro he
        rw [lastEntry, hlt, if_pos he] at h
        exact Option.noConfusion h
      rw [applyAll_cons, ih _ hlt, lookupA_upsert_ne _ _ _ _ (Ne.symm hpk)]
    · rw [lastEntry, hlt] at h
      exact Option.noConfusion h

theorem lookupA_applyAll_of_lastEntry {α : Type} (ps l : List (String × α)) (k : String) (w : α)
    (h : lastEntry ps k = some w) : lookupA (applyAll l ps) k = some w := by
  induction ps generalizing l with
  | nil => exact Option.noConfusion h
  | cons p t ih =>
    obtain ⟨pk, pv⟩ := p
    rcases hlt : lastEntry t k with _ | w'
    · rw [lastEntry, hlt] at h
      by_cases hpk : pk = k
      · rw [if_pos hpk] at h
        injection h with hw
        subst hpk; subst hw
        rw [applyAll_cons, lookupA_applyAll_of_lastEntry_none t _ _ hlt, lookupA_upsert_self]
      · rw [if_neg hpk] at h
        exact Option.noConfusion h
    · have hw : w' = w := by
        rw [lastEntry, hlt] at h
        injection h
      subst hw
      rw [applyAll_cons]
      exact ih _ hlt

theorem mem_keys_upsert {α : Type} (l : List (String × α)) (k k' : String) (v : α) :
    k' ∈ (upsert l k v).map Prod.fst ↔ k' ∈ l.map Prod.fst ∨ k' = k := by
  induction l with
  | nil => simp [upsert]
  | cons hd t ih =>
    obtain ⟨k₀, v₀⟩ := hd
    by_cases hk : k₀ = k
    · subst hk
      simp [upsert]
      tauto
    · simp [upsert, hk, ih]
      tauto

theorem keysNodup_upsert {α : Type} (l : List (String × α)) (k : String) (v : α)
    (h : keysNodup l) : keysNodup (upsert l k v) := by
  induction l with
  | nil => simp [keysNodup, upsert]
  | cons hd t ih =>
    obtain ⟨k₀, v₀⟩ := hd
    rw [keysNodup, List.map_cons, List.nodup_cons] at h
    by_cases hk : k₀ = k
    · subst hk
      have hu : upsert ((k₀, v₀) :: t) k₀ v = (k₀, v) :: t := by simp [upsert]
      rw [keysNodup, hu, List.map_cons, List.nodup_cons]
      exact ⟨h.1, h.2⟩
    · have hu : upsert ((k₀, v₀) :: t) k v = (k₀, v₀) :: upsert t k v := by simp [upsert, hk]
      rw [keysNodup, hu, List.map_cons, List.nodup_cons]
      constructor
      · intro hmem
        rcases (mem_keys_upsert t k k₀ v).mp hmem with hm | he
        · exact h.1 hm
        · exact hk he
      · exact ih h.2

theorem keysNodup_applyAll {α : Type} (ps l : List (String × α)) (h : keysNodup l) :
    keysNodup (applyAll l ps) := by
  induction ps generalizing l with
  | nil => exact h
  | cons p t ih =>
    simp only [applyAll, List.foldl_cons]
    exact ih _ (keysNodup_upsert _ _ _ h)

theorem lastEntry_eq_none_of_not_mem {α : Type} (l : List (String × α)) (k : String)
    (h : k ∉ l.map Prod.fst) : lastEntry l k = none := by
  induction l with
  | nil => rfl
  | cons hd t ih =>
    obtain ⟨k₀, v₀⟩ := hd
    simp only [List.map_cons, List.mem_cons, not_or] at h
    rw [lastEntry, ih h.2, if_neg (fun he => h.1 he.symm)]

theorem lastEntry_of_nodup {α : Type} (l : List (String × α)) (k : String)
    (h : keysNodup l) : lastEntry l k = lookupA l k := by
  induction l with
  | nil => rfl
  | cons hd t ih =>
    obtain ⟨k₀, v₀⟩ := hd
    rw [keysNodup, List.map_cons, List.nodup_cons] at h
    by_cases hk : k₀ = k
    · subst hk
      rw [lastEntry, lastEntry_eq_none_of_not_mem t _ h.1, lookupA, if_pos rfl, if_pos rfl]
    · rw [lastEntry, ih h.2, lookupA, if_neg hk]
      rcases lookupA t k with _ | w <;> simp [hk]

theorem eq_of_mem_of_lookupA {α : Type} (l : List (String × α)) (k : String) (w v : α)
    (hnd : keysNodup l) (hm : (k, w) ∈ l) (hl : lookupA l k = some v) : w = v := by
  induction l with
  | nil => cases hm
  | cons hd t ih =>
    obtain ⟨k₀, v₀⟩ := hd
    rw [keysNodup, List.map_cons, List.nodup_cons] at hnd
    rcases List.mem_cons.mp hm with he | hm'
    · injection he with he1 he2
      subst he1; subst he2
      rw [lookupA, if_pos rfl] at hl
      injection hl
    · by_cases hk : k₀ = k
      · subst hk
        exact absurd (List.mem_map_of_mem Prod.fst hm') hnd.1
      · rw [lookupA, if_neg hk] at hl
        exact ih hnd.2 hm' hl

theorem lastEntry_map {α β : Type} (g : α → β) (l : List (String × α)) (k : String) :
    lastEntry (l.map (fun e => (e.1, g e.2))) k = (lastEntry l k).map g := by
  induction l with
  | nil => rfl
  | cons hd t ih =>
    obtain ⟨k₀, v₀⟩ := hd
    simp only [List.map_cons]
    rw [lastEntry, lastEntry, ih]
    rcases lastEntry t k with _ | w
    · simp only [Option.map_none]
      by_cases hk : k₀ = k
      · simp [hk]
      · simp [hk]
    · simp

/-! ## Resolution loop lemmas -/

theorem lookupA_foldl_resolveStep (resolve : ℕ → Bag → String → Value) (bag : Bag)
    (k : String) (es st : Bag) (h : ∀ w, (k, w) ∈ es → w.isFunc = false) :
    lookupA (es.foldl (resolveStep resolve bag) st) k = lookupA st k := by
  induction es generalizing st with
  | nil => rfl
  | cons e t ih =>
    obtain ⟨ek, ev⟩ := e
    simp only [List.foldl_cons]
    rw [ih _ (fun w hw => h w (List.mem_cons_of_mem _ hw))]
    cases ev with
    | func rid =>
      by_cases hek : ek = k
      · subst hek
        have := h (Value.func rid) (List.mem_cons_self _ _)
        simp [Value.isFunc] at this
      · exact lookupA_upsert_ne _ _ _ _ fun he => hek he.symm
    | str s => rfl
    | num n => rfl
    | bool b => rfl
    | null => rfl
    | sym => rfl
    | obj fs => rfl
    | arr es2 => rfl

/-! ## The JSON parser produces no function values -/

theorem jsonNum_not_func (cs : List Char) (v : Value) (rest : List Char)
    (h : jsonNum cs = some (v, rest)) : v.isFunc = false := by
  simp only [jsonNum] at h
  repeat' split at h
  all_goals
    first
    | exact Option.noConfusion h
    | (simp only [Option.some.injEq, Prod.mk.injEq] at h
       obtain ⟨hv, _⟩ := h
       subst hv
       rfl)

theorem jsonRun_not_func (f : ℕ) (m : JsonMode) (v : Value) (rest : List Char)
    (h : jsonRun f m = some (v, rest)) : v.isFunc = false := by
  induction f generalizing m v rest with
  | zero => exact Option.noConfusion h
  | succ f ih =>
    cases m with
    | val cs =>
      simp only [jsonRun] at h
      repeat' split at h
      all_goals
        first
        | exact Option.noConfusion h
        | exact ih _ _ _ h
        | exact jsonNum_not_func _ _ _ h
        | (simp only [Option.some.injEq, Prod.mk.injEq] at h
           obtain ⟨hv, _⟩ := h
           subst hv
           rfl)
    | objStart cs =>
      simp only [jsonRun] at h
      repeat' split at h
      all_goals
        first
        | exact Option.noConfusion h
        | exact ih _ _ _ h
        | (simp only [Option.some.injEq, Prod.mk.injEq] at h
           obtain ⟨hv, _⟩ := h
           subst hv
           rfl)
    | objBody cs acc =>
      simp only [jsonRun] at h
      repeat' split at h
      all_goals
        first
        | exact Option.noConfusion h
        | exact ih _ _ _ h
        | (simp only [Option.some.injEq, Prod.mk.injEq] at h
           obtain ⟨hv, _⟩ := h
           subst hv
           rfl)
    | arrStart cs =>
      simp only [jsonRun] at h
      repeat' split at h
      all_goals
        first
        | exact Option.noConfusion h
        | exact ih _ _ _ h
        | (simp only [Option.some.injEq, Prod.mk.injEq] at h
           obtain ⟨hv, _⟩ := h
           subst hv
           rfl)
    | arrBody cs acc =>
      simp only [jsonRun] at h
      repeat' split at h
      all_goals
        first
        | exact Option.noConfusion h
        | exact ih _ _ _ h
        | (simp only [Option.some.injEq, Prod.mk.injEq] at h
           obtain ⟨hv, _⟩ := h
           subst hv
           rfl)
    | strBody cs acc =>
      simp only [jsonRun] at h
      repeat' split at h
      all_goals
        first
        | exact Option.noConfusion h
        | exact ih _ _ _ h
        | (simp only [Option.some.injEq, Prod.mk.injEq] at h
           obtain ⟨hv, _⟩ := h
           subst hv
           rfl)

theorem jsonParse_not_func (s : String) (v : Value) (h : jsonParse s = some v) :
    v.isFunc = false := by
  simp only [jsonParse] at h
  rcases hj : jsonRun (s.data.length + 1) (.val s.data) with _ | p
  · rw [hj] at h
    exact Option.noConfusion h
  · obtain ⟨j, rest⟩ := p
    rw [hj] at h
    dsimp only at h
    by_cases hr : (skipWs rest).isEmpty = true
    · rw [if_pos hr] at h
      injection h with hv
      subst hv
      exact jsonRun_not_func _ _ _ _ hj
    · rw [if_neg hr] at h
      exact Option.noConfusion h

theorem parseEnvValue_not_func (s : String) : (parseEnvValue s).isFunc = false := by
  unfold parseEnvValue
  split
  · rfl
  · split
    · rfl
    · split
      · rfl
      · rcases hp : jsonParse s with _ | v
        · simp only [hp]
          rfl
        · simp only [hp]
          exact jsonParse_not_func s v hp

/-! ## Env-file loading lemmas -/

theorem foldl_lineEntry_eq_applyAll (ls : List String) (env : EnvList) :
    ls.foldl
      (fun e line =>
        match lineEntry line with
        | some kv => upsert e kv.1 kv.2
        | none => e)
      env
    = applyAll env (ls.filterMap lineEntry) := by
  induction ls generalizing env with
  | nil => rfl
  | cons l t ih =>
    rcases hf : lineEntry l with _ | kv
    · simp only [List.foldl_cons, List.filterMap_cons, hf, ih]
    · simp only [List.foldl_cons, List.filterMap_cons, hf, ih, applyAll]

theorem loadEnvFile_some_eq (c : String) (env : EnvList) :
    loadEnvFile (some c) env = applyAll env (envFileEntries c) := by
  simp only [loadEnvFile, envFileEntries]
  exact foldl_lineEntry_eq_applyAll _ _

/-! ## Load tail lemmas -/

theorem loadTail_ne_missingEnv (ctx : LoaderCtx) (env : EnvList) (c : Schema) :
    loadTail ctx env c ≠ .error .missingEnv := by
  simp only [loadTail]
  split <;> simp

theorem loadTail_ne_unknownEnv (ctx : LoaderCtx) (env : EnvList) (c : Schema)
    (ne : Option String) : loadTail ctx env c ≠ .error (.unknownEnv ne) := by
  simp only [loadTail]
  split <;> simp

theorem loadTail_ok_eq (ctx : LoaderCtx) (env : EnvList) (c : Schema) (out : Bag)
    (h : loadTail ctx env c = .ok out) : out = resolveStage ctx env c := by
  simp only [loadTail] at h
  split at h
  · exact absurd h (by simp)
  · injection h with h'
    exact h'.symm

theorem loadTail_eq_of_validate_nil (ctx : LoaderCtx) (env : EnvList) (c : Schema)
    (h : ctx.validate (resolveStage ctx env c) = []) :
    loadTail ctx env c = .ok (resolveStage ctx env c) := by
  simp [loadTail, h]

theorem loadTail_eq_of_validate_ne (ctx : LoaderCtx) (env : EnvList) (c : Schema)
    (hne : ctx.validate (resolveStage ctx env c) ≠ []) :
    loadTail ctx env c
      = .error (.validationFailed (validationMsg (ctx.validate (resolveStage ctx env c)))) := by
  rcases hes : ctx.validate (resolveStage ctx env c) with _ | ⟨e, t⟩
  · exact absurd hes hne
  · simp [loadTail, hes]

/-! ## String containment lemmas -/

theorem strData_append (s t : String) : (s ++ t).data = s.data ++ t.data := by
  cases s
  cases t
  rfl

theorem strContains_appendLeft (a b needle : String) (h : strContains needle b) :
    strContains needle (a ++ b) := by
  obtain ⟨pre, post, hp⟩ := h
  exact ⟨a.data ++ pre, post, by rw [strData_append, hp]; simp⟩

theorem strContains_prefixApp (x b : String) : strContains x (x ++ b) :=
  ⟨[], b.data, by rw [strData_append]; simp⟩

theorem strContains_refl (x : String) : strContains x x :=
  ⟨[], [], by simp⟩

theorem strContains_trans (a b c : String) (h1 : strContains a b) (h2 : strContains b c) :
    strContains a c := by
  obtain ⟨p1, q1, hb⟩ := h1
  obtain ⟨p2, q2, hc⟩ := h2
  refine ⟨p2 ++ p1, q1 ++ q2, ?_⟩
  rw [hc, hb]
  simp

theorem strContains_mem_jsJoin (sep : String) (parts : List String) (x : String)
    (h : x ∈ parts) : strContains x (jsJoin sep parts) := by
  induction parts with
  | nil => cases h
  | cons p t ih =>
    cases t with
    | nil =>
      rcases List.mem_cons.mp h with he | hn
      · subst he
        exact strContains_refl x
      · cases hn
    | cons q t2 =>
      rcases List.mem_cons.mp h with he | hn
      · subst he
        refine ⟨[], (sep ++ jsJoin sep (q :: t2)).data, ?_⟩
        simp [jsJoin, strData_append]
      · exact strContains_appendLeft (p ++ sep) _ _ (ih hn)

/-! ## The populate/resolve pipeline, pointwise -/

theorem resolveStage_lookup_env (ctx : LoaderCtx) (env : EnvList) (c : Schema)
    (k : String) (v : String) (hnd : keysNodup c.fields)
    (hle : lastEntry env k = some v) :
    lookupA (resolveStage ctx env c) k = some (parseEnvValue v) := by
  have hmap : lastEntry (env.map (fun e => (e.1, parseEnvValue e.2))) k
      = some (parseEnvValue v) := by
    rw [lastEntry_map, hle]
    rfl
  have hbag : lookupA (populateStage env c) k = some (parseEnvValue v) := by
    unfold populateStage
    exact lookupA_applyAll_of_lastEntry _ _ _ _ hmap
  have hbagNodup : keysNodup (populateStage env c) := keysNodup_applyAll _ _ hnd
  have hinstNodup : keysNodup (plainToInstance c (populateStage env c)) :=
    keysNodup_applyAll _ _ hnd
  have hinst : lookupA (plainToInstance c (populateStage env c)) k
      = some (parseEnvValue v) := by
    unfold plainToInstance
    refine lookupA_applyAll_of_lastEntry _ _ _ _ ?_
    rw [lastEntry_of_nodup _ _ hbagNodup]
    exact hbag
  have hnofunc : ∀ w, (k, w) ∈ plainToInstance c (populateStage env c) → w.isFunc = false := by
    intro w hw
    have := eq_of_mem_of_lookupA _ _ _ _ hinstNodup hw hinst
    subst this
    exact parseEnvValue_not_func v
  unfold resolveStage resolveProps
  rw [lookupA_foldl_resolveStep _ _ _ _ _ hnofunc]
  exact hinst

/-! ## Claim theorems -/

/-- C1: For a base schema declaring field `N` with default 42 and a derived
schema overriding `N` to 69 and declaring, after `N`, a lazy field `M` whose
resolver returns `N * 2`, a successful load of the derived schema returns an
instance with `N == 69` and `M == 138`: the derived override wins over the
base default, and a lazy resolver reading an earlier-declared sibling field
observes that field's final resolved value, not a function. -/
theorem c1_derived_override_and_lazy_sibling (validate : Bag → List FieldError)
    (h : validate c1Expected = []) :
    load (c1Ctx validate) [] [] (some c1Derived) = .ok c1Expected ∧
    lookupA c1Expected "N" = some (Value.num (JsNum.finite 69 0)) ∧
    lookupA c1Expected "M" = some (Value.num (JsNum.finite 138 0)) := by
  refine ⟨?_, rfl, rfl⟩
  have e : load (c1Ctx validate) [] [] (some c1Derived)
      = (if (validate c1Expected).length > 0 then
          Except.error (LoadError.validationFailed (validationMsg (validate c1Expected)))
        else Except.ok c1Expected) := rfl
  rw [e, h]
  simp

/-- C1 witness: the scenario with the trivial validator. -/
theorem c1_witness :
    load (c1Ctx (fun _ => [])) [] [] (some c1Derived) = .ok c1Expected ∧
    lookupA c1Expected "N" = some (Value.num (JsNum.finite 69 0)) ∧
    lookupA c1Expected "M" = some (Value.num (JsNum.finite 138 0)) :=
  c1_derived_override_and_lazy_sibling (fun _ => []) rfl

/-- C2 counterexample: with the ambient variable `UNRELATED=hello` and a
schema declaring only `F`, the returned instance does have an `UNRELATED`
property (the population loop writes every ambient entry, with no
declared-field filter, and `plainToInstance` keeps extraneous keys),
refuting the claim that unmatched ambient variables leave the instance
unchanged. -/
theorem c2_counterexample :
    load trivialCtx [("NODE_ENV", "test"), ("UNRELATED", "hello")] [] (some c2Schema)
      = .ok [("F", Value.str "x"), ("NODE_ENV", Value.str "test"),
          ("UNRELATED", Value.str "hello")] ∧
    lookupA [("F", Value.str "x"), ("NODE_ENV", Value.str "test"),
        ("UNRELATED", Value.str "hello")] "UNRELATED" = some (Value.str "hello") ∧
    lookupA c2Schema.fields "UNRELATED" = none :=
  ⟨rfl, rfl, rfl⟩

/-- C2 (amended): during population every entry of the ambient snapshot is
coerced and written into the draft configuration regardless of whether its
key matches a declared field: whenever load succeeds, the returned instance
carries, at every ambient key, the coerced value of that key's last ambient
entry — matched or unmatched by the schema's declared fields. -/
theorem c2_amended_every_env_var_written (ctx : LoaderCtx) (env : EnvList) (c : Schema)
    (k v : String) (out : Bag) (hnd : keysNodup c.fields)
    (hle : lastEntry env k = some v) (hok : loadTail ctx env c = .ok out) :
    lookupA out k = some (parseEnvValue v) := by
  rw [loadTail_ok_eq _ _ _ _ hok]
  exact resolveStage_lookup_env _ _ _ _ _ hnd hle

/-- C2 witness: the counterexample input, through the amended theorem. -/
theorem c2_witness :
    lookupA [("F", Value.str "x"), ("NODE_ENV", Value.str "test"),
        ("UNRELATED", Value.str "hello")] "UNRELATED" = some (Value.str "hello") :=
  c2_amended_every_env_var_written trivialCtx [("NODE_ENV", "test"), ("UNRELATED", "hello")]
    c2Schema "UNRELATED" "hello"
    [("F", Value.str "x"), ("NODE_ENV", Value.str "test"), ("UNRELATED", Value.str "hello")]
    (by decide) rfl rfl

/-- C3 counterexample: with `A=ambient` in the ambient set and an env file
containing the line `A=file`, `loadEnvFile` replaces the ambient value (the
source assigns `process.env[key] = value` unconditionally), refuting the
claim that a pre-existing ambient value is never overwritten. -/
theorem c3_counterexample :
    lookupA ([("A", "ambient")] : EnvList) "A" = some "ambient" ∧
    loadEnvFile (some "A=file") [("A", "ambient")] = [("A", "file")] ∧
    ("file" : String) ≠ "ambient" :=
  ⟨rfl, rfl, by decide⟩

/-- C3 (amended): `loadEnvFile` writes every well-formed file entry
unconditionally, so file values override ambient ones: for a key present in
the ambient set, the value after the call is the file's last well-formed
entry for that key when one exists, and the original ambient value only
otherwise. -/
theorem c3_amended_file_overwrites_ambient (env : EnvList) (content : String) (k v : String)
    (h : lookupA env k = some v) :
    lookupA (loadEnvFile (some content) env) k
      = some ((lastEntry (envFileEntries content) k).getD v) := by
  rw [loadEnvFile_some_eq]
  rcases hle : lastEntry (envFileEntries content) k with _ | w
  · rw [lookupA_applyAll_of_lastEntry_none _ _ _ hle, h]
    rfl
  · rw [lookupA_applyAll_of_lastEntry _ _ _ _ hle]
    rfl

/-- C3 witness: a key the file does not set keeps its ambient value. -/
theorem c3_witness :
    lookupA (loadEnvFile (some "B=new") [("A", "keep"), ("B", "old")]) "A"
      = some ((lastEntry (envFileEntries "B=new") "A").getD "keep") :=
  c3_amended_file_overwrites_ambient [("A", "keep"), ("B", "old")] "B=new" "A" "keep" rfl

/-- C4 counterexample: `coerce("Infinity")` is the non-finite number
`Infinity` (the source only checks `!isNaN(Number(value))`), not the string
`"Infinity"` that the claimed finite-number policy would produce
(`"Infinity"` is not valid JSON, so under the claim it would fall through to
the string branch). -/
theorem c4_counterexample :
    parseEnvValue "Infinity" = Value.num JsNum.inf ∧
    JsNum.isFinite JsNum.inf = false ∧
    jsonParse "Infinity" = none ∧
    parseEnvValue "Infinity" ≠ Value.str "Infinity" := by
  refine ⟨rfl, rfl, rfl, ?_⟩
  intro h
  rw [show parseEnvValue "Infinity" = Value.num JsNum.inf from rfl] at h
  exact Value.noConfusion h

/-- C4 (amended): coercion tries, in fixed order, case-insensitive boolean,
then any non-`NaN` numeric parse of a non-empty input (`Infinity` included),
then JSON, then falls back to the original string; in particular
`coerce("true") == true`, `coerce("FALSE") == false`, `coerce("42") == 42`,
`coerce` of the `a:1` object literal gives that object, `coerce("hello") == "hello"`,
`coerce("") == ""` (the empty string never coerces to 0),
`coerce("Infinity") == Infinity` and `coerce("NaN") == "NaN"`. -/
theorem c4_amended_coercion_examples :
    parseEnvValue "true" = Value.bool true ∧
    parseEnvValue "FALSE" = Value.bool false ∧
    parseEnvValue "42" = Value.num (JsNum.finite 42 0) ∧
    parseEnvValue "\x7b\"a\":1\x7d" = Value.obj [("a", Value.num (JsNum.finite 1 0))] ∧
    parseEnvValue "hello" = Value.str "hello" ∧
    parseEnvValue "" = Value.str "" ∧
    parseEnvValue "Infinity" = Value.num JsNum.inf ∧
    parseEnvValue "NaN" = Value.str "NaN" :=
  ⟨rfl, rfl, rfl, rfl, rfl, rfl, rfl, rfl⟩

/-- C5 counterexample: with the selector present but empty
(`NODE_ENV=""`) and no explicit schema, `load` fails with the
missing-environment error (the source tests JS falsiness, `!nodeEnv`),
refuting the claim that this error occurs exactly when the selector is
absent. -/
theorem c5_counterexample :
    load trivialCtx [("NODE_ENV", "")] [] none = .error .missingEnv ∧
    lookupA ([("NODE_ENV", "")] : EnvList) "NODE_ENV" = some "" :=
  ⟨rfl, rfl⟩

/-- C5 (amended): `load` fails with the missing-environment error exactly
when no explicit schema is given and the selector is JS-falsy (absent or the
empty string), and with the unknown-environment error exactly when no
explicit schema is given, the selector is non-empty, and its value has no
registered schema (after the best-effort local registration); in both cases
no instance is returned. -/
theorem c5_amended_error_conditions (ctx : LoaderCtx) (env : EnvList) (reg : Registry)
    (explicit : Option Schema) :
    (load ctx env reg explicit = .error .missingEnv ↔
      explicit = none ∧ jsFalsyStr (lookupA (effectiveEnv ctx env) "NODE_ENV") = true) ∧
    (load ctx env reg explicit
        = .error (.unknownEnv (lookupA (effectiveEnv ctx env) "NODE_ENV")) ↔
      explicit = none ∧ jsFalsyStr (lookupA (effectiveEnv ctx env) "NODE_ENV") = false ∧
        nodeEnvLookup (effectiveRegistry ctx reg) (lookupA (effectiveEnv ctx env) "NODE_ENV")
          = none) := by
  cases explicit with
  | some c =>
    have e : load ctx env reg (some c) = loadTail ctx (effectiveEnv ctx env) c := rfl
    rw [e]
    constructor
    · constructor
      · intro h
        exact absurd h (loadTail_ne_missingEnv _ _ _)
      · rintro ⟨h, -⟩
        exact Option.noConfusion h
    · constructor
      · intro h
        exact absurd h (loadTail_ne_unknownEnv _ _ _ _)
      · rintro ⟨h, -⟩
        exact Option.noConfusion h
  | none =>
    cases hf : jsFalsyStr (lookupA (effectiveEnv ctx env) "NODE_ENV") with
    | true =>
      have e : load ctx env reg none = .error .missingEnv := by
        simp [load, hf]
      rw [e]
      constructor
      · exact ⟨fun _ => ⟨rfl, rfl⟩, fun _ => rfl⟩
      · constructor
        · intro h
          injection h with h2
          exact LoadError.noConfusion h2
        · rintro ⟨-, hbad, -⟩
          exact Bool.noConfusion hbad
    | false =>
      rcases hl : nodeEnvLookup (effectiveRegistry ctx reg)
          (lookupA (effectiveEnv ctx env) "NODE_ENV") with _ | c
      · have e : load ctx env reg none
            = .error (.unknownEnv (lookupA (effectiveEnv ctx env) "NODE_ENV")) := by
          simp [load, hf, hl]
        rw [e]
        constructor
        · constructor
          · intro h
            injection h with h2
            exact LoadError.noConfusion h2
          · rintro ⟨-, hbad⟩
            exact Bool.noConfusion hbad
        · exact ⟨fun _ => ⟨rfl, rfl, rfl⟩, fun _ => rfl⟩
      · have e : load ctx env reg none = loadTail ctx (effectiveEnv ctx env) c := by
          simp [load, hf, hl]
        rw [e]
        constructor
        · constructor
          · intro h
            exact absurd h (loadTail_ne_missingEnv _ _ _)
          · rintro ⟨-, hbad⟩
            exact Bool.noConfusion hbad
        · constructor
          · intro h
            exact absurd h (loadTail_ne_unknownEnv _ _ _ _)
          · rintro ⟨-, -, hbad⟩
            exact Option.noConfusion hbad

/-- C6: when `load` is called with an explicit schema argument, that schema
is the one populated, resolved, validated and returned — the result is the
populate/resolve/validate tail on that schema, not depending on the registry
or on the selector variable (even when it is unset); environment-based
lookup is consulted only when no explicit schema is given. -/
theorem c6_explicit_schema_overrides_selection (ctx : LoaderCtx) (env : EnvList)
    (reg : Registry) (c : Schema) :
    load ctx env reg (some c) = loadTail ctx (effectiveEnv ctx env) c := rfl

/-- C7: `register` maps each schema to the identifier obtained by
lower-casing its name and stripping one trailing `config` suffix
(a schema named `ProductionConfig` registers under `production`), and when
two registered schemas derive the same identifier, the later registration
replaces the earlier one in the registry lookup (last call wins). -/
theorem c7_register_identifier_last_wins :
    envKey "ProductionConfig" = "production" ∧
    (∀ (reg : Registry) (c : Schema), lookupA (register reg [c]) (envKey c.name) = some c) ∧
    (∀ (reg : Registry) (c₁ c₂ : Schema), envKey c₁.name = envKey c₂.name →
      lookupA (register reg [c₁, c₂]) (envKey c₁.name) = some c₂) := by
  refine ⟨rfl, ?_, ?_⟩
  · intro reg c
    exact lookupA_upsert_self _ _ _
  · intro reg c₁ c₂ h
    have e : register reg [c₁, c₂]
        = upsert (upsert reg (envKey c₁.name) c₁) (envKey c₂.name) c₂ := rfl
    rw [e, h]
    exact lookupA_upsert_self _ _ _

/-- C7 witness: `ProductionConfig` and `PRODUCTIONCONFIG` both derive
`production`; after registering both, lookup yields the later schema. -/
theorem c7_witness :
    lookupA (register [] [prodSchema, prodSchema2]) "production" = some prodSchema2 :=
  c7_register_identifier_last_wins.2.2 [] prodSchema prodSchema2 rfl

/-- C8: with an explicit schema, `load` succeeds returning the resolved
instance exactly when the validation list is empty, and on a non-empty list
fails with a single aggregate error whose message contains every failing
field's violation reasons (all of them, not only the first). -/
theorem c8_validation_aggregate (ctx : LoaderCtx) (env : EnvList) (reg : Registry)
    (c : Schema) :
    (load ctx env reg (some c) = .ok (resolveStage ctx (effectiveEnv ctx env) c) ↔
      ctx.validate (resolveStage ctx (effectiveEnv ctx env) c) = []) ∧
    (ctx.validate (resolveStage ctx (effectiveEnv ctx env) c) ≠ [] →
      load ctx env reg (some c)
        = .error (.validationFailed
            (validationMsg (ctx.validate (resolveStage ctx (effectiveEnv ctx env) c))))) ∧
    (∀ e ∈ ctx.validate (resolveStage ctx (effectiveEnv ctx env) c),
      ∀ p ∈ e.constraints,
        strContains p.2
          (validationMsg (ctx.validate (resolveStage ctx (effectiveEnv ctx env) c)))) := by
  have e0 : load ctx env reg (some c) = loadTail ctx (effectiveEnv ctx env) c := rfl
  refine ⟨⟨?_, ?_⟩, ?_, ?_⟩
  · intro h
    by_cases hv : ctx.validate (resolveStage ctx (effectiveEnv ctx env) c) = []
    · exact hv
    · rw [e0, loadTail_eq_of_validate_ne _ _ _ hv] at h
      exact Except.noConfusion h
  · intro hv
    rw [e0]
    exact loadTail_eq_of_validate_nil _ _ _ hv
  · intro hne
    rw [e0]
    exact loadTail_eq_of_validate_ne _ _ _ hne
  · intro e he p hp
    have h1 : strContains p.2 (jsJoin ", " (e.constraints.map (fun q => q.2))) :=
      strContains_mem_jsJoin _ _ _ (List.mem_map_of_mem (fun q => q.2) hp)
    have h2 : strContains (jsJoin ", " (e.constraints.map (fun q => q.2)))
        (jsJoin "; " ((ctx.validate (resolveStage ctx (effectiveEnv ctx env) c)).map
          (fun e2 => jsJoin ", " (e2.constraints.map (fun q => q.2))))) :=
      strContains_mem_jsJoin _ _ _
        (List.mem_map_of_mem (fun e2 => jsJoin ", " (e2.constraints.map (fun q => q.2))) he)
    exact strContains_appendLeft _ _ _ (strContains_trans _ _ _ h1 h2)

/-- C8 witness: a validator reporting two failing fields (one with two
reasons) makes `load` fail with the aggregate message, which contains the
second reason of the first field. -/
theorem c8_witness :
    load c8Ctx [] [] (some c8Schema)
      = .error (.validationFailed "Validation failed: A must be a number, A too big; B bad") ∧
    strContains "A too big" "Validation failed: A must be a number, A too big; B bad" := by
  have h := c8_validation_aggregate c8Ctx [] [] c8Schema
  constructor
  · exact h.2.1 (by decide)
  · exact h.2.2 ⟨"A", [("isNumber", "A must be a number"), ("max", "A too big")]⟩ (by decide)
      ("max", "A too big") (by decide)

/-- C9: when the configured env file does not exist, `loadEnvFile` is a
no-op raising no error, the ambient environment is unchanged, and `load`
behaves exactly as if no env file were configured. -/
theorem c9_missing_env_file_noop (ctx : LoaderCtx) (env : EnvList) (reg : Registry)
    (explicit : Option Schema) (h : ∀ p, ctx.fs p = none) :
    loadEnvFile none env = env ∧
    effectiveEnv ctx env = env ∧
    load ctx env reg explicit
      = load { ctx with envFilePath := .bool false } env reg explicit := by
  have he : effectiveEnv ctx env = env := by
    unfold effectiveEnv
    split
    · rw [h]
      rfl
    · rfl
  have he2 : effectiveEnv { ctx with envFilePath := .bool false } env = env := rfl
  refine ⟨rfl, he, ?_⟩
  simp only [load, he, he2]
  rfl

/-- C9 witness: a loader pointing at a missing env file. -/
theorem c9_witness :
    loadEnvFile none [("A", "1")] = [("A", "1")] ∧
    effectiveEnv c9Ctx [("A", "1")] = [("A", "1")] ∧
    load c9Ctx [("A", "1")] [] none
      = load { c9Ctx with envFilePath := .bool false } [("A", "1")] [] none :=
  c9_missing_env_file_noop c9Ctx [("A", "1")] [] none (fun _ => rfl)

/-- C10: an ambient variable present with the empty string as its value
still overrides the field's schema-declared default — only absent variables
are skipped during population — so on a successful load the field's value on
the returned instance is the empty string, not the default. -/
theorem c10_empty_string_env_overrides_default (ctx : LoaderCtx) (env : EnvList)
    (c : Schema) (k : String) (d : Value) (out : Bag) (hnd : keysNodup c.fields)
    (_hdecl : lookupA c.fields k = some d) (hle : lastEntry env k = some "")
    (hok : loadTail ctx env c = .ok out) :
    lookupA out k = some (Value.str "") := by
  rw [loadTail_ok_eq _ _ _ _ hok]
  exact resolveStage_lookup_env _ _ _ _ _ hnd hle

/-- C10 witness: field `F` defaults to `default`, the ambient set carries
`F=`, and the returned instance has `F == ""`. -/
theorem c10_witness :
    loadTail trivialCtx [("F", "")] c10Schema = .ok [("F", Value.str "")] ∧
    lookupA [("F", Value.str "")] "F" = some (Value.str "") :=
  ⟨rfl,
    c10_empty_string_env_overrides_default trivialCtx [("F", "")] c10Schema "F"
      (Value.str "default") [("F", Value.str "")] (by decide) rfl rfl rfl⟩

end Funtime
